import Mathlib

/-!
Shallow embedding of `gitlab_my_tasks.py`.

REST side: `Issue` models the issue JSON dicts consumed by `build_issue_tree`
(the fields the program reads: `id`, `iid`, `title`, `state`, `type`,
`parent` (its `"id"` entry), `description`).  Optional dict keys are
`Option`-typed; `none` models an absent (or falsy) key.  Python dicts built
by comprehension are modelled as last-wins association lookups.  The HTTP
transport is passed in as an explicit oracle (`getLinks` for the decoded
links of an issue, `http` for raw responses), mirroring the spec's view of
the Relationship Fetcher as an external collaborator.
-/

namespace GitlabMyTasks

/-- Issue record: the dict fields read by the program. -/
structure Issue where
  id : Nat
  iid : Nat
  title : String
  state : String
  type : Option String
  parent : Option Nat
  description : Option String
deriving DecidableEq, Repr

/-- Link record: the fields of a typed issue link read by the program. -/
structure Link where
  link_type : String
  iid : Nat
deriving DecidableEq, Repr

/-- HTTP response as seen by `get_issue_links`: a status code and the decoded
JSON body (a list of links). -/
structure HttpResponse where
  status_code : Nat
  body : List Link
deriving DecidableEq, Repr

/-- Embedding of `get_issue_links`: a 404 yields `[]`; `raise_for_status`
raises exactly for status codes in `[400, 600)`; otherwise the decoded body
is returned.  The transport is the explicit `http` oracle keyed by
`(project_id, issue_iid)`. -/
def get_issue_links (http : Nat → Nat → HttpResponse) (project_id : Nat)
    (issue_iid : Nat) : Except Nat (List Link) :=
  let response := http project_id issue_iid
  if response.status_code = 404 then Except.ok []
  else if 400 ≤ response.status_code ∧ response.status_code < 600 then
    Except.error response.status_code
  else Except.ok response.body

/-- Embedding of Python `str.splitlines` restricted to the line breaks the
program can meet (`\n`, `\r\n`, `\r`); no trailing empty line for a trailing
break. -/
def splitlines_aux : List Char → List Char → List String
  | [], acc => if acc.isEmpty then [] else [String.mk acc.reverse]
  | '\r' :: '\n' :: rest, acc => String.mk acc.reverse :: splitlines_aux rest []
  | '\n' :: rest, acc => String.mk acc.reverse :: splitlines_aux rest []
  | '\r' :: rest, acc => String.mk acc.reverse :: splitlines_aux rest []
  | c :: rest, acc => splitlines_aux rest (c :: acc)

/-- Split a string into its lines, Python-`splitlines` style. -/
def splitlines (s : String) : List String :=
  splitlines_aux s.data []

/-- Python whitespace for `str.strip` (ASCII range). -/
def isPyWhitespace (c : Char) : Bool :=
  c = ' ' ∨ c = '\t' ∨ c = '\n' ∨ c = '\r' ∨ c = '\x0b' ∨ c = '\x0c'

/-- Embedding of `line.strip()`. -/
def pyStrip (s : String) : String :=
  String.mk (((s.data.dropWhile isPyWhitespace).reverse.dropWhile
    isPyWhitespace).reverse)

/-- Embedding of the per-line regex match `re.match(r"^- \[( |x)\] (.+)$",
line.strip())` for newline-free lines (the only lines `splitlines`
produces): after stripping, the line must be `- [`, then a single space or
lowercase `x`, then `] `, then a nonempty remainder (the `(.+)` group). -/
def matchCheckbox (line : String) : Option (Bool × String) :=
  match (pyStrip line).data with
  | '-' :: ' ' :: '[' :: c :: ']' :: ' ' :: rest =>
    if (c = ' ' ∨ c = 'x') ∧ rest ≠ [] then some (c == 'x', String.mk rest)
    else none
  | _ => none

/-- Loop body of `parse_tasks_from_description`: append the pair when the
line matches. -/
def push_task (tasks : List (Bool × String)) (line : String) :
    List (Bool × String) :=
  match matchCheckbox line with
  | some t => tasks ++ [t]
  | none => tasks

/-- Embedding of `parse_tasks_from_description`: `none` models a `None`
description, and the empty string is falsy in Python, so both return `[]`;
otherwise each line is matched against the checkbox pattern and matches are
appended in order. -/
def parse_tasks_from_description (description : Option String) :
    List (Bool × String) :=
  match description with
  | none => []
  | some s =>
    if s = "" then []
    else (splitlines s).foldl push_task []

/-- ChildrenMap: insertion-ordered association list from a parent id to the
ordered list of child issues, modelling the Python dict of lists. -/
abbrev CM := List (Nat × List Issue)

/-- Embedding of `children_map.setdefault(k, []).append(v)`. -/
def cmAppend (m : CM) (k : Nat) (v : Issue) : CM :=
  match m with
  | [] => [(k, [v])]
  | (k', vs) :: rest =>
    if k' = k then (k', vs ++ [v]) :: rest else (k', vs) :: cmAppend rest k v

/-- Embedding of `children_map.get(k, [])`. -/
def cmGet (m : CM) (k : Nat) : List Issue :=
  match m.find? (fun e => e.1 = k) with
  | some e => e.2
  | none => []

/-- All child entries of the map, i.e. the concatenation of
`children_map.values()`. -/
def cmValues (m : CM) : List Issue :=
  (m.map Prod.snd).flatten

/-- Embedding of the dict `issues_by_id` (`{issue["id"]: issue}`): lookup is
last-wins, as in a Python dict comprehension. -/
def issues_by_id (issues : List Issue) (k : Nat) : Option Issue :=
  issues.reverse.find? (fun i => i.id = k)

/-- Embedding of the dict `iid_to_id` (`{issue["iid"]: issue["id"]}`). -/
def iid_to_id (issues : List Issue) (k : Nat) : Option Nat :=
  (issues.reverse.find? (fun i => i.iid = k)).map Issue.id

/-- Body of the explicit-parent loop: an issue whose `parent` id is present
in `issues_by_id` is appended to that parent's entry. -/
def parent_step (issues : List Issue) (m : CM) (issue : Issue) : CM :=
  match issue.parent with
  | some pid =>
    if (issues_by_id issues pid).isSome then cmAppend m pid issue else m
  | none => m

/-- Embedding of the explicit-parent pass of `build_issue_tree`. -/
def parent_pass (issues : List Issue) : CM :=
  issues.foldl (parent_step issues) []

/-- Resolution of one link inside the link-derived pass: the link counts only
if its `link_type` is `"blocks"`, its target `iid` resolves to a known id
(`linked_id` truthy, i.e. not `None` and not `0`) different from the source
issue's own id; the resolved child is then `issues_by_id[linked_id]`. -/
def resolve_link_target (issues : List Issue) (issue : Issue) (link : Link) :
    Option Issue :=
  if link.link_type = "blocks" then
    match iid_to_id issues link.iid with
    | some lid =>
      if lid ≠ 0 ∧ lid ≠ issue.id then issues_by_id issues lid else none
    | none => none
  else none

/-- Body of the `for link in links` loop: a resolvable link target is
appended under the source issue's id. -/
def link_step (issues : List Issue) (issue : Issue) (m : CM) (link : Link) :
    CM :=
  match resolve_link_target issues issue link with
  | some target => cmAppend m issue.id target
  | none => m

/-- Embedding of the per-issue body of the link-derived pass: for an issue of
type `"issue"` (absent type defaults to `"issue"`), each resolvable `blocks`
link target is appended under the issue's id. -/
def link_edges_for (getLinks : Nat → List Link) (issues : List Issue)
    (m : CM) (issue : Issue) : CM :=
  if issue.type.getD "issue" = "issue" then
    (getLinks issue.iid).foldl (link_step issues issue) m
  else m

/-- Embedding of the whole link-derived pass of `build_issue_tree`. -/
def links_pass (getLinks : Nat → List Link) (issues : List Issue) (m : CM) :
    CM :=
  issues.foldl (link_edges_for getLinks issues) m

/-- ChildrenMap produced by `build_issue_tree`: the explicit-parent pass
followed by the link-derived pass. -/
def build_children_map (getLinks : Nat → List Link) (issues : List Issue) :
    CM :=
  links_pass getLinks issues (parent_pass issues)

/-- Does the issue carry a `parent` reference whose id is a key of
`issues_by_id`?  (`parent and parent.get("id") in issues_by_id`). -/
def hasResolvableParent (issues : List Issue) (issue : Issue) : Bool :=
  match issue.parent with
  | some pid => issues.any (fun j => j.id = pid)
  | none => false

/-- Embedding of the `is_child` test of the root pass: a resolvable parent
reference, or membership (by value) in some child list of the map. -/
def is_child_check (issues : List Issue) (m : CM) (issue : Issue) : Bool :=
  hasResolvableParent issues issue || (cmValues m).any (fun x => x = issue)

/-- RootSet produced by `build_issue_tree`: the input issues that are not
children under either signal, in input order. -/
def build_root_issues (getLinks : Nat → List Link) (issues : List Issue) :
    List Issue :=
  issues.filter (fun issue =>
    !(is_child_check issues (build_children_map getLinks issues) issue))

/-- Embedding of `build_issue_tree` (the `issues_by_id` component of the
Python return value is the derived lookup `issues_by_id issues`). -/
def build_issue_tree (getLinks : Nat → List Link) (issues : List Issue) :
    CM × List Issue :=
  (build_children_map getLinks issues, build_root_issues getLinks issues)

/-!
GraphQL side: `WorkItem` models the nested dict returned by
`fetch_workitem_hierarchy` and walked by `print_workitem_hierarchy`.
Every key the walker reads may be absent (`none`).  `workItemType` is
doubly optional: the outer `Option` is the `workItemType` key, the inner
one its `name` key.
-/

mutual
/-- WorkItem node: the dict fields read by `print_workitem_hierarchy`. -/
inductive WorkItem : Type where
  | mk (workItemType : Option (Option String))
       (title : Option String) (iid : Option String) (state : Option String)
       (createdAt : Option String)
       (widgets : Option (List Widget)) : WorkItem
/-- Widget entry of a work item's `widgets` array. -/
inductive Widget : Type where
  | mk (type : Option String) (hasChildren : Option Bool)
       (children : Option ChildrenConn) : Widget
/-- Paginated `children` connection of a HIERARCHY widget. -/
inductive ChildrenConn : Type where
  | mk (nodes : Option (List WorkItem)) : ChildrenConn
end

/-- Indentation unit of the walker: `"    " * indent`. -/
def indent_str (n : Nat) : String :=
  String.join (List.replicate n "    ")

/-- Embedding of `created_at.split("T")[0]`: the prefix of the string before
the first `T` (the whole string when no `T` occurs). -/
def split_T_head (s : String) : String :=
  String.mk (s.data.takeWhile (fun c => c ≠ 'T'))

/-- Rendered line of one work item:
`f"{prefix}[{wtype}] #{iid} | {state} | {created_at} | {title}"` with the
`.get` defaults of the source (`"?"` for a missing type name, `""` for the
other attributes). -/
def workitem_line (w : WorkItem) (indent : Nat) : String :=
  match w with
  | .mk wt title iid st created _ =>
    let pre := indent_str indent ++ "- "
    let wtype := (wt.getD none).getD "?"
    let created_at := split_T_head (created.getD "")
    pre ++ "[" ++ wtype ++ "] #" ++ iid.getD "" ++ " | " ++ st.getD ""
      ++ " | " ++ created_at ++ " | " ++ title.getD ""

mutual
/-- Embedding of `print_workitem_hierarchy`: appends the item's line to the
accumulator (`lines=None` defaults to a fresh `[]`, modelled by passing
`[]`), then recurses into `widget["children"]["nodes"]` of every widget of
type `HIERARCHY`, with the source's `.get` defaults for missing keys. -/
def print_workitem_hierarchy (w : WorkItem) (indent : Nat)
    (lines : List String) : List String :=
  match w with
  | .mk wt title iid st created widgets =>
    let lines := lines ++ [workitem_line (.mk wt title iid st created widgets) indent]
    match widgets with
    | some ws => pwh_widgets ws indent lines
    | none => lines
/-- Loop `for widget in widgets` of `print_workitem_hierarchy`. -/
def pwh_widgets (ws : List Widget) (indent : Nat) (lines : List String) :
    List String :=
  match ws with
  | [] => lines
  | .mk wtype _hc children :: rest =>
    let lines :=
      if wtype = some "HIERARCHY" then
        match children with
        | some (.mk (some cs)) => pwh_children cs indent lines
        | some (.mk none) => lines
        | none => lines
      else lines
    pwh_widgets rest indent lines
/-- Loop `for child in children` of `print_workitem_hierarchy`. -/
def pwh_children (cs : List WorkItem) (indent : Nat) (lines : List String) :
    List String :=
  match cs with
  | [] => lines
  | c :: rest => pwh_children rest indent (print_workitem_hierarchy c (indent + 1) lines)
end

mutual
/-- Number of work-item nodes embedded in a response and visited by the
walker: the node itself plus, for each HIERARCHY widget, its children. -/
def hier_count (w : WorkItem) : Nat :=
  match w with
  | .mk _ _ _ _ _ widgets =>
    1 + (match widgets with
         | some ws => hier_count_widgets ws
         | none => 0)
/-- Node count contributed by a widget list. -/
def hier_count_widgets (ws : List Widget) : Nat :=
  match ws with
  | [] => 0
  | .mk wtype _hc children :: rest =>
    (if wtype = some "HIERARCHY" then
      match children with
      | some (.mk (some cs)) => hier_count_children cs
      | some (.mk none) => 0
      | none => 0
     else 0) + hier_count_widgets rest
/-- Node count contributed by a child list. -/
def hier_count_children (cs : List WorkItem) : Nat :=
  match cs with
  | [] => 0
  | c :: rest => hier_count c + hier_count_children rest
end

/-- Children of a work item through its HIERARCHY widgets, in visit order. -/
def widget_children (w : Widget) : List WorkItem :=
  match w with
  | .mk wtype _hc children =>
    if wtype = some "HIERARCHY" then
      match children with
      | some (.mk (some cs)) => cs
      | some (.mk none) => []
      | none => []
    else []

/-- HIERARCHY children of a work item, in visit order. -/
def hier_children (w : WorkItem) : List WorkItem :=
  match w with
  | .mk _ _ _ _ _ none => []
  | .mk _ _ _ _ _ (some ws) => ws.flatMap widget_children

/-- Does the node carry no `widgets` key at all?  The innermost level of the
static GraphQL query selects no `widgets` field, so level-2 nodes of a
response satisfy this. -/
def no_widgets (w : WorkItem) : Bool :=
  match w with
  | .mk _ _ _ _ _ none => true
  | .mk _ _ _ _ _ (some _) => false

/-- Shape guarantee of `fetch_workitem_hierarchy`'s fixed two-level query:
grandchildren of the fetched work item come back without a `widgets`
selection. -/
def fetch_shape (w : WorkItem) : Bool :=
  (hier_children w).all (fun c1 => (hier_children c1).all no_widgets)

/-- The two-level response shape makes the embedded depth stop at the
grandchildren. -/
def truncation_depth_ok (w : WorkItem) : Bool :=
  (hier_children w).all (fun c1 =>
    (hier_children c1).all (fun c2 => (hier_children c2).isEmpty))

/-!
Derived notions used to state the claims: the child registrations the two
passes perform, the relationship edges justified by the input data, the
edges present in the produced ChildrenMap, and reachability from the root
set.
-/

/-- Children the link-derived pass registers under `issue.id`, in order. -/
def link_targets (getLinks : Nat → List Link) (issues : List Issue)
    (issue : Issue) : List Issue :=
  if issue.type.getD "issue" = "issue" then
    (getLinks issue.iid).filterMap (resolve_link_target issues issue)
  else []

/-- Every child registration `build_issue_tree` performs, explicit-parent
pass first, then the link-derived registrations in pass order. -/
def registrations (getLinks : Nat → List Link) (issues : List Issue) :
    List Issue :=
  issues.filter (fun i => hasResolvableParent issues i)
    ++ issues.flatMap (fun i => link_targets getLinks issues i)

/-- Justification of a ChildrenMap entry `(k, c)` by the input data: either
`c` carries a resolvable explicit `parent` reference to `k`, or some
non-task issue with id `k` carries a link that resolves to `c`. -/
def src_edge_k (getLinks : Nat → List Link) (issues : List Issue)
    (k : Nat) (c : Issue) : Prop :=
  (c ∈ issues ∧ c.parent = some k ∧ (issues_by_id issues k).isSome)
  ∨ (∃ i ∈ issues, i.id = k ∧ i.type.getD "issue" = "issue" ∧
      ∃ link ∈ getLinks i.iid, resolve_link_target issues i link = some c)

/-- Relationship edge between ids justified by the input data. -/
def src_edge_id (getLinks : Nat → List Link) (issues : List Issue)
    (k k' : Nat) : Prop :=
  ∃ c, src_edge_k getLinks issues k c ∧ c.id = k'

/-- Parent-to-child edge between ids present in a ChildrenMap. -/
def cm_edge_id (m : CM) (k k' : Nat) : Prop :=
  ∃ c ∈ cmGet m k, c.id = k'

/-- Issues reachable from the root set: the roots themselves and, from any
reachable issue, the children listed under its id. -/
inductive ReachFromRoots (m : CM) (roots : List Issue) : Issue → Prop
  | root {i : Issue} : i ∈ roots → ReachFromRoots m roots i
  | child {p c : Issue} : ReachFromRoots m roots p → c ∈ cmGet m p.id →
      ReachFromRoots m roots c

/-!
Concrete inputs used by counterexamples and witnesses.
-/

/-- Oracle returning no links for any issue. -/
def noLinks : Nat → List Link := fun _ => []

/-- Issue `P1` (concrete input): plain issue, no parent. -/
def issueP1 : Issue := ⟨1, 1, "P1", "opened", some "issue", none, none⟩

/-- Issue `P2` (concrete input): plain issue, no parent, carries a `blocks`
link to `X`'s iid. -/
def issueP2 : Issue := ⟨2, 2, "P2", "opened", some "issue", none, none⟩

/-- Issue `X` (concrete input): task with explicit parent `P1`. -/
def issueX : Issue := ⟨3, 3, "X", "opened", some "task", some 1, none⟩

/-- Input where `X` has explicit parent `P1` and is also the target of a
`blocks` link from `P2`. -/
def issuesDouble : List Issue := [issueP1, issueP2, issueX]

/-- Links oracle for `issuesDouble`: `P2` blocks `X`. -/
def getLinksDouble : Nat → List Link :=
  fun iid => if iid = 2 then [⟨"blocks", 3⟩] else []

/-- Issue `A` of the explicit-parent cycle: its parent is `B`. -/
def issueA : Issue := ⟨1, 1, "A", "opened", some "task", some 2, none⟩

/-- Issue `B` of the explicit-parent cycle: its parent is `A`. -/
def issueB : Issue := ⟨2, 2, "B", "opened", some "task", some 1, none⟩

/-- Input forming a two-cycle through explicit parent references. -/
def issuesCycle : List Issue := [issueA, issueB]

/-- Issue `C` of the link cycle. -/
def issueC : Issue := ⟨1, 1, "C", "opened", some "issue", none, none⟩

/-- Issue `D` of the link cycle. -/
def issueD : Issue := ⟨2, 2, "D", "opened", some "issue", none, none⟩

/-- Input for the link cycle: every parent/link target resolves. -/
def issuesLinkCycle : List Issue := [issueC, issueD]

/-- Links oracle forming a cycle: `C` blocks `D` and `D` blocks `C`. -/
def getLinksCycle : Nat → List Link :=
  fun iid => if iid = 1 then [⟨"blocks", 2⟩] else
    if iid = 2 then [⟨"blocks", 1⟩] else []

/-- Acyclic chain input: `X` is the explicit child of `P1`. -/
def issuesChain : List Issue := [issueP1, issueX]

/-- Issue carrying both a self `parent` reference and a self `blocks`
link. -/
def issueSelf : Issue := ⟨1, 1, "S", "opened", some "issue", some 1, none⟩

/-- Links oracle giving `issueSelf` a `blocks` link to its own iid. -/
def getLinksSelf : Nat → List Link :=
  fun iid => if iid = 1 then [⟨"blocks", 1⟩] else []

/-- Transport always answering 404 (with a decoded body that must be
discarded). -/
def http404 : Nat → Nat → HttpResponse := fun _ _ => ⟨404, [⟨"blocks", 9⟩]⟩

/-- Transport always answering 500. -/
def http500 : Nat → Nat → HttpResponse := fun _ _ => ⟨500, []⟩

/-- Level-2 node of the truncated response: its real children exist remotely
but the fixed-depth query returned it without any `widgets` selection. -/
def wiGrand : WorkItem :=
  .mk (some (some "Task")) (some "grand") (some "3") (some "opened")
    (some "2024-01-02T03:04:05Z") none

/-- Level-1 node of the truncated response, whose HIERARCHY widget reports
`hasChildren = true` and embeds the level-2 node. -/
def wiChild : WorkItem :=
  .mk (some (some "Task")) (some "child") (some "2") (some "opened")
    (some "2024-01-02T03:04:05Z")
    (some [.mk (some "HIERARCHY") (some true) (some (.mk (some [wiGrand])))])

/-- Root of the truncated response: a work item whose real hierarchy is
three levels deep, fetched by the fixed two-level query. -/
def wiRoot : WorkItem :=
  .mk (some (some "Issue")) (some "root") (some "1") (some "opened")
    (some "2024-01-02T03:04:05Z")
    (some [.mk (some "HIERARCHY") (some true) (some (.mk (some [wiChild])))])

/-- Work item whose every field is absent. -/
def wiEmpty : WorkItem := .mk none none none none none none

/-!
Helper lemmas about the ChildrenMap operations and the folds of
`build_issue_tree`.
-/

/-- Invariant preservation along a left fold. -/
theorem foldl_invariant {α β : Type} (P : β → Prop) (f : β → α → β)
    (l : List α) (b : β) (h0 : P b)
    (hstep : ∀ b a, a ∈ l → P b → P (f b a)) : P (l.foldl f b) := by
  induction l generalizing b with
  | nil => exact h0
  | cons a rest ih =>
    exact ih (f b a) (hstep b a (List.mem_cons_self a rest)
      h0) (fun b' a' ha' hb' => hstep b' a' (List.mem_cons_of_mem a ha') hb')

/-- Reading a key after an append: the appended value lands at the end of
its key's entry and other keys are untouched. -/
theorem cmGet_cmAppend (m : CM) (k k' : Nat) (v : Issue) :
    cmGet (cmAppend m k v) k' =
      if k' = k then cmGet m k' ++ [v] else cmGet m k' := by
  induction m with
  | nil =>
    by_cases h : k' = k
    · simp [cmAppend, cmGet, List.find?, h]
    · have hd : (decide (k = k')) = false :=
        decide_eq_false (fun hh => h hh.symm)
      simp [cmAppend, cmGet, List.find?, hd, h]
  | cons e rest ih =>
    obtain ⟨k'', vs⟩ := e
    by_cases h1 : k'' = k
    · subst h1
      by_cases h2 : k' = k''
      · subst h2
        simp [cmAppend, cmGet, List.find?]
      · have hd : (decide (k'' = k')) = false :=
          decide_eq_false (fun hh => h2 hh.symm)
        simp [cmAppend, cmGet, List.find?, hd, h2]
    · by_cases h2 : k' = k''
      · subst h2
        simp [cmAppend, cmGet, List.find?, h1]
      · have hd : (decide (k'' = k')) = false :=
          decide_eq_false (fun hh => h2 hh.symm)
        simp only [cmAppend, if_neg h1, cmGet, List.find?, hd]
        simpa [cmGet] using ih

/-- Membership in an entry after an append. -/
theorem mem_cmGet_cmAppend {m : CM} {k k' : Nat} {v x : Issue}
    (h : x ∈ cmGet (cmAppend m k v) k') :
    x ∈ cmGet m k' ∨ (k' = k ∧ x = v) := by
  rw [cmGet_cmAppend] at h
  by_cases hk : k' = k
  · rw [if_pos hk] at h
    rcases List.mem_append.1 h with h' | h'
    · exact Or.inl h'
    · exact Or.inr ⟨hk, List.mem_singleton.1 h'⟩
  · rw [if_neg hk] at h
    exact Or.inl h

/-- Appending a child adds exactly that child to the multiset of values. -/
theorem cmValues_cmAppend (m : CM) (k : Nat) (v : Issue) :
    (cmValues (cmAppend m k v)).Perm (v :: cmValues m) := by
  induction m with
  | nil => simp [cmAppend, cmValues]
  | cons e rest ih =>
    obtain ⟨k'', vs⟩ := e
    by_cases h1 : k'' = k
    · subst h1
      have he : cmAppend ((k'', vs) :: rest) k'' v = (k'', vs ++ [v]) :: rest := by
        simp [cmAppend]
      rw [he]
      simp only [cmValues, List.map_cons, List.flatten_cons, List.append_assoc,
        List.singleton_append]
      exact List.perm_middle
    · simp only [cmAppend, if_neg h1, cmValues, List.map_cons,
        List.flatten_cons]
      exact (List.Perm.append_left vs ih).trans List.perm_middle

/-- A successful `issues_by_id` lookup returns an issue bearing the
looked-up id. -/
theorem issues_by_id_eq_some_id {issues : List Issue} {k : Nat} {t : Issue}
    (h : issues_by_id issues k = some t) : t.id = k := by
  have := List.find?_some h
  simpa using this

/-- A successful `issues_by_id` lookup returns a member of the input. -/
theorem mem_of_issues_by_id {issues : List Issue} {k : Nat} {t : Issue}
    (h : issues_by_id issues k = some t) : t ∈ issues := by
  have := List.mem_of_find?_eq_some h
  simpa using this

/-- The `pid in issues_by_id` test coincides with an id scan of the input
list. -/
theorem issues_by_id_isSome_iff {issues : List Issue} {k : Nat} :
    (issues_by_id issues k).isSome = true ↔
      issues.any (fun j => j.id = k) = true := by
  simp [issues_by_id, List.find?_isSome, List.any_eq_true, List.mem_reverse]

/-- A resolved link target is an input issue whose id differs from the
linking issue's id. -/
theorem resolve_link_target_some {issues : List Issue} {issue : Issue}
    {link : Link} {t : Issue}
    (h : resolve_link_target issues issue link = some t) :
    t ∈ issues ∧ t.id ≠ issue.id := by
  unfold resolve_link_target at h
  split at h
  · split at h
    · split at h
      · rename_i hg
        exact ⟨mem_of_issues_by_id h,
          by rw [issues_by_id_eq_some_id h]; exact hg.2⟩
      · exact absurd h (by simp)
    · exact absurd h (by simp)
  · exact absurd h (by simp)

/-- Reading the source issue's own entry after its link loop: the resolved
targets are appended in link order. -/
theorem cmGet_link_fold_self (issues : List Issue) (issue : Issue)
    (links : List Link) (m : CM) :
    cmGet (links.foldl (link_step issues issue) m) issue.id =
      cmGet m issue.id ++ links.filterMap (resolve_link_target issues issue) := by
  induction links generalizing m with
  | nil => simp
  | cons l rest ih =>
    simp only [List.foldl_cons, List.filterMap_cons]
    cases hr : resolve_link_target issues issue l with
    | none => simp [link_step, hr, ih]
    | some t =>
      simp [link_step, hr, ih, cmGet_cmAppend]

/-- The link loop of one issue leaves every other key's entry unchanged. -/
theorem cmGet_link_fold_other (issues : List Issue) (issue : Issue)
    (links : List Link) (m : CM) {k : Nat} (hk : k ≠ issue.id) :
    cmGet (links.foldl (link_step issues issue) m) k = cmGet m k := by
  induction links generalizing m with
  | nil => simp
  | cons l rest ih =>
    simp only [List.foldl_cons]
    cases hr : resolve_link_target issues issue l with
    | none => simp [link_step, hr, ih]
    | some t =>
      simp [link_step, hr, ih, cmGet_cmAppend, hk]

/-- Reading the source issue's own entry after its link pass step. -/
theorem cmGet_link_edges_for_self (g : Nat → List Link) (issues : List Issue)
    (m : CM) (issue : Issue) :
    cmGet (link_edges_for g issues m issue) issue.id =
      cmGet m issue.id ++ link_targets g issues issue := by
  unfold link_edges_for link_targets
  by_cases ht : issue.type.getD "issue" = "issue"
  · rw [if_pos ht, if_pos ht]
    exact cmGet_link_fold_self issues issue (g issue.iid) m
  · rw [if_neg ht, if_neg ht]
    simp

/-- The link pass step of one issue leaves other keys' entries unchanged. -/
theorem cmGet_link_edges_for_other (g : Nat → List Link)
    (issues : List Issue) (m : CM) (issue : Issue) {k : Nat}
    (hk : k ≠ issue.id) :
    cmGet (link_edges_for g issues m issue) k = cmGet m k := by
  unfold link_edges_for
  by_cases ht : issue.type.getD "issue" = "issue"
  · rw [if_pos ht]
    exact cmGet_link_fold_other issues issue (g issue.iid) m hk
  · rw [if_neg ht]

/-- Multiset of children registered by the explicit-parent loop over `l`:
exactly the issues of `l` with a resolvable parent. -/
theorem cmValues_parent_fold (issues : List Issue) :
    ∀ (l : List Issue) (m : CM),
      (cmValues (l.foldl (parent_step issues) m)).Perm
        (cmValues m ++ l.filter (fun i => hasResolvableParent issues i)) := by
  intro l
  induction l with
  | nil => intro m; simp
  | cons i rest ih =>
    intro m
    simp only [List.foldl_cons]
    cases hp : i.parent with
    | none =>
      have hstep : parent_step issues m i = m := by simp [parent_step, hp]
      have hres : hasResolvableParent issues i = false := by
        simp [hasResolvableParent, hp]
      rw [hstep]
      simpa [List.filter_cons, hres] using ih m
    | some pid =>
      by_cases hs : (issues_by_id issues pid).isSome = true
      · have hstep : parent_step issues m i = cmAppend m pid i := by
          simp [parent_step, hp, hs]
        have hres : hasResolvableParent issues i = true := by
          have hany := issues_by_id_isSome_iff.mp hs
          simp [hasResolvableParent, hp, hany]
        rw [hstep, List.filter_cons]
        simp only [hres, if_pos]
        have h1 := ih (cmAppend m pid i)
        have h2 := (cmValues_cmAppend m pid i).append_right
          (rest.filter (fun j => hasResolvableParent issues j))
        refine h1.trans (h2.trans ?_)
        exact List.Perm.symm List.perm_middle
      · have hstep : parent_step issues m i = m := by
          simp [parent_step, hp, hs]
        have hres : hasResolvableParent issues i = false := by
          simp only [hasResolvableParent, hp]
          exact Bool.eq_false_iff.mpr
            (fun hh => hs (issues_by_id_isSome_iff.mpr hh))
        rw [hstep]
        simpa [List.filter_cons, hres] using ih m

/-- Multiset of children registered by one issue's link loop. -/
theorem cmValues_link_fold (issues : List Issue) (issue : Issue)
    (links : List Link) (m : CM) :
    (cmValues (links.foldl (link_step issues issue) m)).Perm
      (cmValues m ++ links.filterMap (resolve_link_target issues issue)) := by
  induction links generalizing m with
  | nil => simp
  | cons l rest ih =>
    simp only [List.foldl_cons, List.filterMap_cons]
    cases hr : resolve_link_target issues issue l with
    | none => simpa [link_step, hr] using ih m
    | some t =>
      have hstep : link_step issues issue m l = cmAppend m issue.id t := by
        simp [link_step, hr]
      rw [hstep]
      have h1 := ih (cmAppend m issue.id t)
      have h2 := (cmValues_cmAppend m issue.id t).append_right
        (rest.filterMap (resolve_link_target issues issue))
      refine h1.trans (h2.trans ?_)
      exact List.Perm.symm List.perm_middle

/-- Multiset of children registered by one issue's link pass step. -/
theorem cmValues_link_edges_for (g : Nat → List Link) (issues : List Issue)
    (m : CM) (issue : Issue) :
    (cmValues (link_edges_for g issues m issue)).Perm
      (cmValues m ++ link_targets g issues issue) := by
  unfold link_edges_for link_targets
  by_cases ht : issue.type.getD "issue" = "issue"
  · rw [if_pos ht, if_pos ht]
    exact cmValues_link_fold issues issue (g issue.iid) m
  · rw [if_neg ht, if_neg ht]
    simp

/-- Multiset of children registered by the whole link pass over `l`. -/
theorem cmValues_links_fold (g : Nat → List Link) (issues : List Issue) :
    ∀ (l : List Issue) (m : CM),
      (cmValues (l.foldl (link_edges_for g issues) m)).Perm
        (cmValues m ++ l.flatMap (fun i => link_targets g issues i)) := by
  intro l
  induction l with
  | nil => intro m; simp
  | cons i rest ih =>
    intro m
    simp only [List.foldl_cons, List.flatMap_cons]
    have h1 := ih (link_edges_for g issues m i)
    have h2 := (cmValues_link_edges_for g issues m i).append_right
      (rest.flatMap (fun j => link_targets g issues j))
    refine h1.trans (h2.trans ?_)
    simp [List.append_assoc]

/-- The children recorded by `build_issue_tree`'s map are exactly its
registrations, as a multiset. -/
theorem cmValues_build (g : Nat → List Link) (issues : List Issue) :
    (cmValues (build_children_map g issues)).Perm (registrations g issues) := by
  unfold build_children_map links_pass registrations
  have h1 := cmValues_links_fold g issues issues (parent_pass issues)
  refine h1.trans ?_
  have h2 := cmValues_parent_fold issues issues []
  unfold parent_pass
  exact (h2.append_right _).trans (by simp [cmValues])

/-- The link pass over issues whose ids all differ from `k` leaves the entry
of `k` unchanged. -/
theorem cmGet_links_fold_of_ne (g : Nat → List Link) (issues : List Issue)
    (l : List Issue) (m : CM) (k : Nat) (hl : ∀ j ∈ l, j.id ≠ k) :
    cmGet (l.foldl (link_edges_for g issues) m) k = cmGet m k := by
  induction l generalizing m with
  | nil => rfl
  | cons i rest ih =>
    simp only [List.foldl_cons]
    rw [ih _ (fun j hj => hl j (List.mem_cons_of_mem _ hj)),
      cmGet_link_edges_for_other g issues m i
        (Ne.symm (hl i (List.mem_cons_self _ _)))]

/-- Entry of an input issue in the final ChildrenMap, when ids are unique:
the children recorded by the explicit-parent pass followed by all of the
issue's own resolvable link targets, in order.  No first-writer-wins check
intervenes. -/
theorem cmGet_build_eq (g : Nat → List Link) (issues : List Issue)
    (issue : Issue) (hn : (issues.map Issue.id).Nodup) (hm : issue ∈ issues) :
    cmGet (build_children_map g issues) issue.id =
      cmGet (parent_pass issues) issue.id ++ link_targets g issues issue := by
  obtain ⟨pre, post, rfl⟩ := List.append_of_mem hm
  have hn' := hn
  rw [List.map_append, List.map_cons, List.nodup_append] at hn'
  obtain ⟨hn1, hn2, hdisj⟩ := hn'
  rw [List.nodup_cons] at hn2
  have hpre : ∀ j ∈ pre, j.id ≠ issue.id := fun j hj heq =>
    hdisj (List.mem_map_of_mem _ hj)
      (by rw [heq]; exact List.mem_cons_self _ _)
  have hpost : ∀ j ∈ post, j.id ≠ issue.id := fun j hj heq =>
    hn2.1 (heq ▸ List.mem_map_of_mem _ hj)
  unfold build_children_map links_pass
  rw [List.foldl_append, List.foldl_cons,
    cmGet_links_fold_of_ne g _ post _ _ hpost,
    cmGet_link_edges_for_self,
    cmGet_links_fold_of_ne g _ pre _ _ hpre]

/-- Every entry `(k, c)` of the produced ChildrenMap is justified by the
input data: an explicit resolvable parent reference or a resolvable
`blocks` link. -/
theorem build_edge_src (g : Nat → List Link) (issues : List Issue) :
    ∀ k c, c ∈ cmGet (build_children_map g issues) k →
      src_edge_k g issues k c := by
  unfold build_children_map links_pass
  have hbase : ∀ k c, c ∈ cmGet (parent_pass issues) k →
      src_edge_k g issues k c := by
    unfold parent_pass
    refine foldl_invariant
      (fun m => ∀ k c, c ∈ cmGet m k → src_edge_k g issues k c) _ _ _
      (fun k c hc => absurd hc (by simp [cmGet])) ?_
    intro m i hi hP k c hc
    unfold parent_step at hc
    split at hc
    · rename_i pid hp
      by_cases hs : (issues_by_id issues pid).isSome = true
      · rw [if_pos hs] at hc
        rcases mem_cmGet_cmAppend hc with h | ⟨hk, hcv⟩
        · exact hP k c h
        · subst hk; subst hcv
          exact Or.inl ⟨hi, hp, hs⟩
      · rw [if_neg hs] at hc; exact hP k c hc
    · exact hP k c hc
  refine foldl_invariant
    (fun m => ∀ k c, c ∈ cmGet m k → src_edge_k g issues k c) _ _ _ hbase ?_
  intro m i hi hP k c hc
  unfold link_edges_for at hc
  by_cases ht : i.type.getD "issue" = "issue"
  · rw [if_pos ht] at hc
    revert hc
    refine foldl_invariant
      (fun m' => c ∈ cmGet m' k → src_edge_k g issues k c) _ _ _ (hP k c) ?_
    intro m' link hlink hP' hc
    unfold link_step at hc
    cases hr : resolve_link_target issues i link with
    | none => rw [hr] at hc; exact hP' hc
    | some t =>
      rw [hr] at hc
      rcases mem_cmGet_cmAppend hc with h | ⟨hk, hcv⟩
      · exact hP' h
      · subst hk; subst hcv
        exact Or.inr ⟨i, hi, rfl, ht, link, hlink, hr⟩
  · rw [if_neg ht] at hc; exact hP k c hc

/-- Every registration is an input issue. -/
theorem mem_registrations_sub (g : Nat → List Link) (issues : List Issue) :
    ∀ x ∈ registrations g issues, x ∈ issues := by
  intro x hx
  unfold registrations at hx
  rcases List.mem_append.1 hx with h | h
  · exact List.mem_of_mem_filter h
  · obtain ⟨i, _hi, hx'⟩ := List.mem_flatMap.1 h
    unfold link_targets at hx'
    by_cases ht : i.type.getD "issue" = "issue"
    · rw [if_pos ht] at hx'
      obtain ⟨link, _hlink, hr⟩ := List.mem_filterMap.1 hx'
      exact (resolve_link_target_some hr).1
    · rw [if_neg ht] at hx'
      exact absurd hx' (List.not_mem_nil x)

/-- The `is_child` flag is false exactly when neither signal marks the issue
as a child. -/
theorem is_child_check_false_iff (issues : List Issue) (m : CM)
    (issue : Issue) :
    is_child_check issues m issue = false ↔
      hasResolvableParent issues issue = false ∧ issue ∉ cmValues m := by
  unfold is_child_check
  rw [Bool.or_eq_false_iff]
  constructor
  · rintro ⟨h1, h2⟩
    refine ⟨h1, fun hmem => ?_⟩
    have : (cmValues m).any (fun x => x = issue) = true :=
      List.any_eq_true.2 ⟨issue, hmem, by simp⟩
    rw [this] at h2; exact Bool.true_eq_false.mp h2
  · rintro ⟨h1, h2⟩
    refine ⟨h1, ?_⟩
    rw [Bool.eq_false_iff]
    intro hany
    obtain ⟨x, hx, hxe⟩ := List.any_eq_true.1 hany
    exact h2 (by rwa [show x = issue from by simpa using hxe] at hx)

/-- Membership in the produced root set, unfolded to the two defining
conditions. -/
theorem mem_build_root_issues (g : Nat → List Link) (issues : List Issue)
    (issue : Issue) :
    issue ∈ build_root_issues g issues ↔
      issue ∈ issues ∧ hasResolvableParent issues issue = false ∧
        issue ∉ cmValues (build_children_map g issues) := by
  unfold build_root_issues
  rw [List.mem_filter, Bool.not_eq_true', is_child_check_false_iff]

/-- Nothing is reachable from an empty root set. -/
theorem reach_from_nil (m : CM) : ∀ i, ¬ ReachFromRoots m [] i := by
  intro i h
  induction h with
  | root hm => exact absurd hm (List.not_mem_nil _)
  | child hp hc ih => exact ih

mutual
/-- The walker only appends: rendering onto `l1 ++ l2` prepends `l1`
verbatim. -/
theorem pwh_acc (w : WorkItem) (indent : Nat) (l1 l2 : List String) :
    print_workitem_hierarchy w indent (l1 ++ l2) =
      l1 ++ print_workitem_hierarchy w indent l2 := by
  match w with
  | .mk wt title iid st created none =>
    simp [print_workitem_hierarchy]
  | .mk wt title iid st created (some ws) =>
    simp only [print_workitem_hierarchy, List.append_assoc]
    exact pwh_widgets_acc ws indent l1 (l2 ++ [_])
termination_by sizeOf w
/-- Accumulator lemma for the widget loop. -/
theorem pwh_widgets_acc (ws : List Widget) (indent : Nat)
    (l1 l2 : List String) :
    pwh_widgets ws indent (l1 ++ l2) = l1 ++ pwh_widgets ws indent l2 := by
  match ws with
  | [] => simp [pwh_widgets]
  | .mk wtype hc (some (.mk (some cs))) :: rest =>
    by_cases h : wtype = some "HIERARCHY"
    · simp only [pwh_widgets, h, if_true, if_pos]
      rw [pwh_children_acc cs indent l1 l2]
      exact pwh_widgets_acc rest indent l1 (pwh_children cs indent l2)
    · simp only [pwh_widgets, h, if_false, if_neg, not_false_iff]
      exact pwh_widgets_acc rest indent l1 l2
  | .mk wtype hc (some (.mk none)) :: rest =>
    simp only [pwh_widgets, ite_self]
    exact pwh_widgets_acc rest indent l1 l2
  | .mk wtype hc none :: rest =>
    simp only [pwh_widgets, ite_self]
    exact pwh_widgets_acc rest indent l1 l2
termination_by sizeOf ws
/-- Accumulator lemma for the child loop. -/
theorem pwh_children_acc (cs : List WorkItem) (indent : Nat)
    (l1 l2 : List String) :
    pwh_children cs indent (l1 ++ l2) = l1 ++ pwh_children cs indent l2 := by
  match cs with
  | [] => simp [pwh_children]
  | c :: rest =>
    simp only [pwh_children]
    rw [pwh_acc c (indent + 1) l1 l2]
    exact pwh_children_acc rest indent l1
      (print_workitem_hierarchy c (indent + 1) l2)
termination_by sizeOf cs
end

mutual
/-- The walker emits exactly one line per embedded hierarchy node: no
truncation marker, nothing beyond the nodes of the single response. -/
theorem pwh_len (w : WorkItem) (indent : Nat) (lines : List String) :
    (print_workitem_hierarchy w indent lines).length =
      lines.length + hier_count w := by
  match w with
  | .mk wt title iid st created none =>
    simp [print_workitem_hierarchy, hier_count]
  | .mk wt title iid st created (some ws) =>
    simp only [print_workitem_hierarchy, hier_count]
    rw [pwh_widgets_len ws indent (lines ++ [_])]
    simp
    omega
termination_by sizeOf w
/-- Line count of the widget loop. -/
theorem pwh_widgets_len (ws : List Widget) (indent : Nat)
    (lines : List String) :
    (pwh_widgets ws indent lines).length =
      lines.length + hier_count_widgets ws := by
  match ws with
  | [] => simp [pwh_widgets, hier_count_widgets]
  | .mk wtype hc (some (.mk (some cs))) :: rest =>
    by_cases h : wtype = some "HIERARCHY"
    · simp only [pwh_widgets, hier_count_widgets, h, if_true, if_pos]
      rw [pwh_widgets_len rest indent (pwh_children cs indent lines),
        pwh_children_len cs indent lines]
      omega
    · simp only [pwh_widgets, hier_count_widgets, h, if_false, if_neg,
        not_false_iff]
      rw [pwh_widgets_len rest indent lines]
      omega
  | .mk wtype hc (some (.mk none)) :: rest =>
    simp only [pwh_widgets, hier_count_widgets, ite_self]
    rw [pwh_widgets_len rest indent lines]
    omega
  | .mk wtype hc none :: rest =>
    simp only [pwh_widgets, hier_count_widgets, ite_self]
    rw [pwh_widgets_len rest indent lines]
    omega
termination_by sizeOf ws
/-- Line count of the child loop. -/
theorem pwh_children_len (cs : List WorkItem) (indent : Nat)
    (lines : List String) :
    (pwh_children cs indent lines).length =
      lines.length + hier_count_children cs := by
  match cs with
  | [] => simp [pwh_children, hier_count_children]
  | c :: rest =>
    simp only [pwh_children, hier_count_children]
    rw [pwh_children_len rest indent
      (print_workitem_hierarchy c (indent + 1) lines),
      pwh_len c (indent + 1) lines]
    omega
termination_by sizeOf cs
end

/-- Folding the checklist push step is a `filterMap` over the line
matcher. -/
theorem foldl_push_filterMap (l : List String) :
    ∀ acc : List (Bool × String),
      l.foldl push_task acc = acc ++ l.filterMap matchCheckbox := by
  induction l with
  | nil => intro acc; simp
  | cons a rest ih =>
    intro acc
    simp only [List.foldl_cons, List.filterMap_cons]
    cases hf : matchCheckbox a with
    | none => simp [push_task, hf, ih]
    | some b => simp [push_task, hf, ih]

/-- Rendering onto an arbitrary accumulator, from the fresh-accumulator
output. -/
theorem pwh_lines_eq (w : WorkItem) (lines out : List String)
    (h : print_workitem_hierarchy w 0 [] = out) :
    print_workitem_hierarchy w 0 lines = lines ++ out := by
  rw [← h]
  have ha := pwh_acc w 0 lines []
  simpa using ha

/-!
The claims.
-/

/-- Claim C1 (corrected, counterexample): with `X` attached under `P1` by an
explicit parent reference, a later `blocks` link from `P2` to `X` still
appends `X` under `P2`, so `X` is a child of two parents — there is no
first-writer-wins check. -/
theorem C1_double_parent_counterexample :
    issueX ∈ cmGet (build_children_map getLinksDouble issuesDouble) issueP1.id
    ∧ issueX ∈ cmGet (build_children_map getLinksDouble issuesDouble) issueP2.id
    ∧ issueP1.id ≠ issueP2.id
    ∧ issueX.parent = some issueP1.id
    ∧ getLinksDouble issueP2.iid = [⟨"blocks", issueX.iid⟩] := by
  exact ⟨by decide, by decide, by decide, by decide, by decide⟩

/-- Claim C1 (corrected, amended): the link-derived pass appends every
resolvable non-self `blocks` target of an issue to that issue's entry
unconditionally — the final entry of an input issue (under unique ids) is
the explicit-parent children followed by all of its link targets, whether
or not a target was already attached elsewhere. -/
theorem C1_link_pass_appends_unconditionally (g : Nat → List Link)
    (issues : List Issue) (issue : Issue)
    (hn : (issues.map Issue.id).Nodup) (hm : issue ∈ issues) :
    cmGet (build_children_map g issues) issue.id =
      cmGet (parent_pass issues) issue.id ++ link_targets g issues issue :=
  cmGet_build_eq g issues issue hn hm

/-- Claim C1 witness: the amended characterization applied at a concrete
input. -/
theorem C1_link_pass_appends_unconditionally_witness :
    cmGet (build_children_map getLinksDouble issuesDouble) issueP2.id =
      cmGet (parent_pass issuesDouble) issueP2.id
        ++ link_targets getLinksDouble issuesDouble issueP2 :=
  C1_link_pass_appends_unconditionally getLinksDouble issuesDouble issueP2
    (by decide) (by decide)

/-- Claim C2 (corrected, counterexample): two issues whose explicit parent
references point at each other produce a cyclic ChildrenMap — issue id 1 is
its own descendant. -/
theorem C2_cycle_counterexample :
    Relation.TransGen
      (cm_edge_id (build_children_map noLinks issuesCycle)) 1 1 := by
  have e12 : cm_edge_id (build_children_map noLinks issuesCycle) 1 2 :=
    ⟨issueB, by decide, by decide⟩
  have e21 : cm_edge_id (build_children_map noLinks issuesCycle) 2 1 :=
    ⟨issueA, by decide, by decide⟩
  exact Relation.TransGen.head e12 (Relation.TransGen.single e21)

/-- Claim C2 (corrected, amended): the produced ChildrenMap is acyclic —
no id is its own strict descendant, hence no walk from a root revisits an
id — provided the relationship graph of the input data (explicit resolvable
parent references and resolvable `blocks` links) is itself acyclic; the
builder itself performs no cycle detection. -/
theorem C2_acyclic_of_source_acyclic (g : Nat → List Link)
    (issues : List Issue)
    (h : ∀ n, ¬ Relation.TransGen (src_edge_id g issues) n n) :
    ∀ n, ¬ Relation.TransGen
      (cm_edge_id (build_children_map g issues)) n n := by
  intro n hn
  refine h n (Relation.TransGen.mono ?_ hn)
  rintro a b ⟨c, hc, hid⟩
  exact ⟨c, build_edge_src g issues a c hc, hid⟩

/-- Claim C2 witness: the amended theorem applied to the acyclic chain
input, whose map carries a real edge. -/
theorem C2_acyclic_of_source_acyclic_witness :
    ¬ Relation.TransGen
      (cm_edge_id (build_children_map noLinks issuesChain)) 1 1 := by
  refine C2_acyclic_of_source_acyclic noLinks issuesChain ?_ 1
  have hedge : ∀ k k', src_edge_id noLinks issuesChain k k' →
      k = 1 ∧ k' = 3 := by
    rintro k k' ⟨c, hsrc, hid⟩
    rcases hsrc with ⟨hc, hp, _⟩ | ⟨i, _, _, _, link, hlink, _⟩
    · rcases List.mem_cons.mp hc with rfl | hc'
      · exact absurd hp (by simp [issueP1])
      · rcases List.mem_cons.mp hc' with rfl | hc''
        · refine ⟨?_, ?_⟩
          · have h1 : (1 : Nat) = k := by simpa [issueX] using hp
            omega
          · have h2 : (3 : Nat) = k' := by simpa [issueX] using hid
            omega
        · exact absurd hc'' (List.not_mem_nil _)
    · exact absurd hlink (List.not_mem_nil _)
  intro n ht
  have htg : ∀ a b, Relation.TransGen
      (src_edge_id noLinks issuesChain) a b → a = 1 ∧ b = 3 := by
    intro a b h
    induction h with
    | single h1 => exact hedge _ _ h1
    | tail _ h2 ih =>
      have hb := hedge _ _ h2
      omega
  have := htg n n ht
  omega

/-- Claim C3 (corrected, counterexample): in the two-issue `blocks` cycle
every link target resolves inside the input, yet the root set is empty, so
issue `C` is not reachable from the root set — the input set is not covered.
-/
theorem C3_unreachable_counterexample :
    issuesLinkCycle.all (fun i => i.parent.isNone) = true
    ∧ issuesLinkCycle.all (fun i => (getLinksCycle i.iid).all
        (fun link => (iid_to_id issuesLinkCycle link.iid).isSome)) = true
    ∧ issueC ∈ issuesLinkCycle
    ∧ ¬ ReachFromRoots (build_children_map getLinksCycle issuesLinkCycle)
        (build_root_issues getLinksCycle issuesLinkCycle) issueC := by
  refine ⟨by decide, by decide, by decide, fun h => ?_⟩
  have hroots : build_root_issues getLinksCycle issuesLinkCycle = [] := by
    decide
  rw [hroots] at h
  exact reach_from_nil _ _ h

/-- Claim C3 (corrected, amended): when ids are unique, every parent
reference and every link target resolves, and no issue is the target of
more than one child registration, the root set together with the child
lists of the ChildrenMap is the input issue set, each issue exactly once.
(Reachability from the roots additionally needs the acyclicity of claim C2;
with a cycle the counterexample shows members of the cycle are missed.) -/
theorem C3_completeness_perm (g : Nat → List Link) (issues : List Issue)
    (hn : (issues.map Issue.id).Nodup)
    (_hpar : ∀ i ∈ issues,
      Option.all (fun pid => issues.any (fun j => j.id = pid)) i.parent = true)
    (_hlink : ∀ i ∈ issues, ∀ link ∈ g i.iid,
      (iid_to_id issues link.iid).isSome = true)
    (hreg : ∀ i ∈ issues, (registrations g issues).count i ≤ 1) :
    (build_root_issues g issues
      ++ cmValues (build_children_map g issues)).Perm issues := by
  have hperm := cmValues_build g issues
  have hnd : issues.Nodup := List.Nodup.of_map _ hn
  rw [List.perm_iff_count]
  intro a
  rw [List.count_append]
  have hcv : (cmValues (build_children_map g issues)).count a =
      (registrations g issues).count a := hperm.count_eq a
  by_cases hmem : a ∈ issues
  · have hone : issues.count a = 1 := List.count_eq_one_of_mem hnd hmem
    have hr1 : (registrations g issues).count a ≤ 1 := hreg a hmem
    by_cases hv : a ∈ cmValues (build_children_map g issues)
    · have hvc : 0 < (cmValues (build_children_map g issues)).count a :=
        List.count_pos_iff.2 hv
      have hroot : a ∉ build_root_issues g issues := fun hh =>
        ((mem_build_root_issues g issues a).1 hh).2.2 hv
      have h0 : (build_root_issues g issues).count a = 0 :=
        List.count_eq_zero.2 hroot
      omega
    · have hv0 : (cmValues (build_children_map g issues)).count a = 0 :=
        List.count_eq_zero.2 hv
      have hnores : hasResolvableParent issues a = false := by
        cases hb : hasResolvableParent issues a
        · rfl
        · exfalso
          have hin : a ∈ registrations g issues :=
            List.mem_append.2 (Or.inl (List.mem_filter.2 ⟨hmem, hb⟩))
          exact hv (hperm.mem_iff.2 hin)
      have hrt : a ∈ build_root_issues g issues :=
        (mem_build_root_issues g issues a).2 ⟨hmem, hnores, hv⟩
      have hpred : (fun issue => !(is_child_check issues
          (build_children_map g issues) issue)) a = true := by
        simp only [Bool.not_eq_true']
        exact (is_child_check_false_iff issues _ a).2 ⟨hnores, hv⟩
      have hcount : (build_root_issues g issues).count a = issues.count a := by
        unfold build_root_issues
        exact List.count_filter hpred
      omega
  · have h1 : (build_root_issues g issues).count a = 0 :=
      List.count_eq_zero.2
        (fun hh => hmem ((mem_build_root_issues g issues a).1 hh).1)
    have h2 : (registrations g issues).count a = 0 :=
      List.count_eq_zero.2 (fun hh => hmem (mem_registrations_sub g issues a hh))
    have h3 : issues.count a = 0 := List.count_eq_zero.2 hmem
    omega

/-- Claim C3 witness: the amended completeness applied at a concrete
input. -/
theorem C3_completeness_perm_witness :
    (build_root_issues noLinks issuesChain
      ++ cmValues (build_children_map noLinks issuesChain)).Perm
      issuesChain :=
  C3_completeness_perm noLinks issuesChain (by decide) (by decide) (by decide)
    (by decide)

/-- Claim C4 (corrected, counterexample): a response of the fixed two-level
shape, embedding `hasChildren = true` markers on its widgets and a level-2
node whose deeper children are unfetched, renders exactly the three
embedded node lines — levels 0 to 2, with no `has more` indicator and no
error. -/
theorem C4_silent_truncation_counterexample :
    print_workitem_hierarchy wiRoot 0 [] =
      ["- [Issue] #1 | opened | 2024-01-02 | root",
       "    - [Task] #2 | opened | 2024-01-02 | child",
       "        - [Task] #3 | opened | 2024-01-02 | grand"]
    ∧ fetch_shape wiRoot = true := by
  exact ⟨by decide, by decide⟩

/-- Claim C4 (corrected, amended): the hierarchy walker renders exactly one
line per work-item node embedded in the single response — it neither fetches
beyond the response nor emits a truncation indicator — and under the fixed
two-level query shape the embedded nodes stop at the grandchildren, so only
levels 0 to 2 are rendered; the truncation is silent. -/
theorem C4_one_line_per_embedded_node (w : WorkItem)
    (hshape : fetch_shape w = true) (indent : Nat) (lines : List String) :
    (print_workitem_hierarchy w indent lines).length =
      lines.length + hier_count w
    ∧ truncation_depth_ok w = true := by
  refine ⟨pwh_len w indent lines, ?_⟩
  unfold truncation_depth_ok
  unfold fetch_shape at hshape
  rw [List.all_eq_true] at hshape ⊢
  intro c1 hc1
  rw [List.all_eq_true]
  have h1 := hshape c1 hc1
  rw [List.all_eq_true] at h1
  intro c2 hc2
  have h2 := h1 c2 hc2
  match c2 with
  | .mk _ _ _ _ _ none => simp [hier_children]
  | .mk _ _ _ _ _ (some _) => exact absurd h2 (by simp [no_widgets])

/-- Claim C4 witness: the amended theorem applied to the concrete truncated
response. -/
theorem C4_one_line_per_embedded_node_witness :
    (print_workitem_hierarchy wiRoot 0 []).length =
      ([] : List String).length + hier_count wiRoot
    ∧ truncation_depth_ok wiRoot = true :=
  C4_one_line_per_embedded_node wiRoot (by decide) 0 []

/-- Claim C5 (confirmed): an issue is in the root set iff it is an input
issue with no parent reference resolvable inside the input (an unknown
parent id counts as no parent) and it appears in no child list of the final
ChildrenMap. -/
theorem C5_root_set_iff (g : Nat → List Link) (issues : List Issue)
    (issue : Issue) :
    issue ∈ build_root_issues g issues ↔
      issue ∈ issues ∧ hasResolvableParent issues issue = false ∧
        issue ∉ cmValues (build_children_map g issues) :=
  mem_build_root_issues g issues issue

/-- Claim C6 (confirmed): the checklist parser yields one `(checked, text)`
pair per line matching the checkbox pattern (stripped lines, lowercase `x`
only), skips non-matching lines, returns the documented pairs on the
round-trip example, and yields nothing for an absent or empty
description. -/
theorem C6_checklist_parser_spec :
    parse_tasks_from_description none = []
    ∧ parse_tasks_from_description (some "") = []
    ∧ (∀ s, parse_tasks_from_description (some s) =
        (splitlines s).filterMap matchCheckbox)
    ∧ parse_tasks_from_description (some "- [x] done\n- [ ] todo\nnotes") =
        [(true, "done"), (false, "todo")]
    ∧ parse_tasks_from_description (some "   - [x] padded   ") =
        [(true, "padded")]
    ∧ parse_tasks_from_description (some "- [X] upper") = [] := by
  refine ⟨rfl, rfl, ?_, by decide, by decide, by decide⟩
  intro s
  by_cases hs : s = ""
  · subst hs; rfl
  · simp only [parse_tasks_from_description]
    rw [if_neg hs]
    simpa using foldl_push_filterMap (splitlines s) []

/-- Claim C7 (confirmed): a 404 from the links sub-resource yields the empty
link list instead of an error, any other client or server error status
(400 to 599) propagates as a fetch error, and an issue whose fetched links
are empty contributes no link-derived edge to the ChildrenMap. -/
theorem C7_links_not_found_tolerance (http : Nat → Nat → HttpResponse)
    (project_id issue_iid : Nat) :
    ((http project_id issue_iid).status_code = 404 →
      get_issue_links http project_id issue_iid = Except.ok [])
    ∧ ((http project_id issue_iid).status_code ≠ 404 →
        400 ≤ (http project_id issue_iid).status_code →
        (http project_id issue_iid).status_code < 600 →
        get_issue_links http project_id issue_iid =
          Except.error (http project_id issue_iid).status_code)
    ∧ (∀ (g : Nat → List Link) (issues : List Issue) (m : CM)
        (issue : Issue), g issue.iid = [] →
          link_edges_for g issues m issue = m) := by
  refine ⟨?_, ?_, ?_⟩
  · intro h404
    unfold get_issue_links
    rw [if_pos h404]
  · intro hne h400 h600
    unfold get_issue_links
    rw [if_neg hne, if_pos ⟨h400, h600⟩]
  · intro g issues m issue hg
    unfold link_edges_for
    rw [hg]
    by_cases ht : issue.type.getD "issue" = "issue"
    · rw [if_pos ht]; rfl
    · rw [if_neg ht]

/-- Claim C7 witness: the tolerance applied at concrete transports. -/
theorem C7_links_not_found_tolerance_witness :
    get_issue_links http404 1 1 = Except.ok []
    ∧ get_issue_links http500 1 1 = Except.error 500
    ∧ link_edges_for noLinks [] [] issueP1 = [] :=
  ⟨(C7_links_not_found_tolerance http404 1 1).1 rfl,
   (C7_links_not_found_tolerance http500 1 1).2.1 (by decide) (by decide)
     (by decide),
   (C7_links_not_found_tolerance http500 1 1).2.2 noLinks [] [] issueP1 rfl⟩

/-- Claim C8 (corrected, counterexample): an issue carrying a `blocks` link
whose target resolves to its own id, combined with an explicit
self-referencing `parent` field, does end up as its own child — the link
pass skips the self-link but the parent pass does not. -/
theorem C8_self_child_counterexample :
    issueSelf ∈
      cmGet (build_children_map getLinksSelf [issueSelf]) issueSelf.id
    ∧ getLinksSelf issueSelf.iid = [⟨"blocks", issueSelf.iid⟩]
    ∧ iid_to_id [issueSelf] issueSelf.iid = some issueSelf.id := by
  exact ⟨by decide, by decide, by decide⟩

/-- Claim C8 (corrected, amended): an issue whose `parent` field is not a
self-reference never appears as its own child, whatever `blocks` links it
carries — in particular a `blocks` link resolving to the issue's own id is
skipped by the link pass. -/
theorem C8_no_self_child_without_self_parent (g : Nat → List Link)
    (issues : List Issue) (issue : Issue)
    (h : issue.parent ≠ some issue.id) :
    issue ∉ cmGet (build_children_map g issues) issue.id := by
  intro hc
  rcases build_edge_src g issues issue.id issue hc with
    ⟨_, hp, _⟩ | ⟨i, _, hik, _, link, _, hr⟩
  · exact h hp
  · exact (resolve_link_target_some hr).2 hik.symm

/-- Claim C8 witness: the amended statement applied to the self-linking
issue without a self parent. -/
theorem C8_no_self_child_without_self_parent_witness :
    issueP1 ∉
      cmGet (build_children_map getLinksSelf [issueP1]) issueP1.id :=
  C8_no_self_child_without_self_parent getLinksSelf [issueP1] issueP1
    (by decide)

/-- Claim C9 (confirmed): the hierarchy walker only appends to the
accumulator it is given — the pre-existing lines survive unchanged as a
prefix and the freshly rendered lines (the result of rendering with the
fresh empty accumulator of the `lines=None` default) follow them in render
order. -/
theorem C9_renderer_frame (w : WorkItem) (indent : Nat)
    (lines : List String) :
    print_workitem_hierarchy w indent lines =
      lines ++ print_workitem_hierarchy w indent [] := by
  have h := pwh_acc w indent lines []
  simpa using h

/-- Claim C10 (confirmed): rendering succeeds on every combination of
missing fields, substituting `?` for a missing work-item type name (also
when only the nested `name` is missing), the empty string for a missing
title, iid, state or creation date, and no children for missing `widgets`,
a widget without hierarchy structure, or a non-HIERARCHY widget. -/
theorem C10_renderer_total_defaults (lines : List String)
    (hc : Option Bool) (ch : Option ChildrenConn) :
    print_workitem_hierarchy wiEmpty 0 lines =
      lines ++ ["- [?] # |  |  | "]
    ∧ print_workitem_hierarchy
        (.mk none none none none none (some [.mk (some "OTHER") hc ch]))
        0 lines = lines ++ ["- [?] # |  |  | "]
    ∧ print_workitem_hierarchy
        (.mk (some none) (some "t") (some "1") (some "opened")
          (some "2024-01-02T03:04:05Z") none) 0 lines =
        lines ++ ["- [?] #1 | opened | 2024-01-02 | t"]
    ∧ print_workitem_hierarchy
        (.mk (some (some "Epic")) none (some "1") (some "opened")
          (some "2024-01-02T03:04:05Z") none) 0 lines =
        lines ++ ["- [Epic] #1 | opened | 2024-01-02 | "]
    ∧ print_workitem_hierarchy
        (.mk (some (some "Epic")) (some "t") none (some "opened")
          (some "2024-01-02T03:04:05Z") none) 0 lines =
        lines ++ ["- [Epic] # | opened | 2024-01-02 | t"]
    ∧ print_workitem_hierarchy
        (.mk (some (some "Epic")) (some "t") (some "1") none
          (some "2024-01-02T03:04:05Z") none) 0 lines =
        lines ++ ["- [Epic] #1 |  | 2024-01-02 | t"]
    ∧ print_workitem_hierarchy
        (.mk (some (some "Epic")) (some "t") (some "1") (some "opened")
          none none) 0 lines =
        lines ++ ["- [Epic] #1 | opened |  | t"] := by
  refine ⟨pwh_lines_eq _ _ _ (by decide), ?_,
    pwh_lines_eq _ _ _ (by decide), pwh_lines_eq _ _ _ (by decide),
    pwh_lines_eq _ _ _ (by decide), pwh_lines_eq _ _ _ (by decide),
    pwh_lines_eq _ _ _ (by decide)⟩
  refine pwh_lines_eq _ _ _ ?_
  have hline : workitem_line
      (WorkItem.mk none none none none none
        (some [Widget.mk (some "OTHER") hc ch])) 0 =
      "- [?] # |  |  | " := rfl
  simp only [print_workitem_hierarchy, pwh_widgets]
  rw [if_neg (by simp)]
  simp [hline]

end GitlabMyTasks
